import Mathlib

/-!
# Verification of the Tk native web-scraper (`scraper.py`)

A shallow embedding of the extraction-and-classification engine of the
repository: the `FullParser` HTML event handlers, the `FILE_EXT_RE`
downloadable-file classifier, the `urllib.parse.urljoin` URL resolver the
handlers call, the worker loop that derives the media list and drives the
downloads, the `start_scrape` base-URL validation, and the destination-path
derivation of `download_file_if_possible`.

Python strings are modelled as Lean `String` (lists of characters);
machine-level details (encodings, OS path conventions other than `/`) are
out of scope of the claims.
-/

namespace Scraper

/-! ## Python string primitives -/

/-- Python `str.lower()` restricted to ASCII case mapping, which is all the
scraper applies it to (tag, attribute and scheme names). -/
def pyLower (s : String) : String := String.mk (s.data.map Char.toLower)

/-- The characters stripped by Python `str.strip()` (ASCII whitespace). -/
def pySpace (c : Char) : Bool :=
  c = ' ' || c = '\t' || c = '\n' || c = '\r' || c = '\x0b' || c = '\x0c'

/-- Python `str.strip()`. -/
def pyStrip (s : String) : String :=
  String.mk (((s.data.dropWhile pySpace).reverse.dropWhile pySpace).reverse)

/-- Boolean test that `suf` is a suffix of `l`. -/
def isSufL (suf l : List Char) : Bool := suf.reverse.isPrefixOf l.reverse

/-- Python `str.split(sep)` for a one-character separator: always returns at
least one (possibly empty) piece. -/
def pySplit (sep : Char) : List Char → List (List Char)
  | [] => [[]]
  | c :: cs =>
    if c = sep then [] :: pySplit sep cs
    else match pySplit sep cs with
      | [] => [[c]]
      | p :: ps => (c :: p) :: ps

/-- `sep.join(pieces)` for a one-character separator. -/
def pyJoin (sep : Char) : List (List Char) → List Char
  | [] => []
  | [p] => p
  | p :: ps => p ++ sep :: pyJoin sep ps

/-! ## Model of `urllib.parse` (scheme/netloc/path/query/fragment splitting,
`urljoin`). Source: CPython `Lib/urllib/parse.py`. The `params` component
(`;`-suffix of the last path segment) is folded into the path, and the
IPv6-bracket validation of netlocs is omitted; neither affects the URLs the
claims are about. -/

/-- Valid characters of a URL scheme after the leading letter. -/
def schemeChar (c : Char) : Bool := c.isAlphanum || c = '+' || c = '-' || c = '.'

/-- Helper for `findScheme`: scan up to the first `':'`, requiring every
character on the way to be a scheme character. -/
def findSchemeAux (acc : List Char) : List Char → Option (List Char × List Char)
  | [] => none
  | c :: cs =>
    if c = ':' then some (acc.reverse, cs)
    else if schemeChar c then findSchemeAux (c :: acc) cs
    else none

/-- `urlsplit` scheme detection: the prefix before the first `':'` is a scheme
when it is nonempty, starts with a letter and consists of scheme characters. -/
def findScheme : List Char → Option (List Char × List Char)
  | [] => none
  | c :: cs => if c.isAlpha then findSchemeAux [c] cs else none

/-- Scheme of a URL with a default (the `scheme` argument of `urlsplit`);
detected schemes are lowercased. -/
def parsedScheme (url : List Char) (dflt : String) : String × List Char :=
  match findScheme url with
  | some (s, r) => (String.mk (s.map Char.toLower), r)
  | none => (dflt, url)

/-- A URL split into components, Python-style: absent components are the
empty string. -/
structure SplitUrl where
  scheme : String
  netloc : String
  path : String
  query : String
  fragment : String
deriving DecidableEq, Repr

/-- Character ending a netloc. -/
def netlocEnd (c : Char) : Bool := c = '/' || c = '?' || c = '#'

/-- Model of `urllib.parse.urlsplit url dflt` (with `allow_fragments` true). -/
def urlsplitL (url : List Char) (dflt : String) : SplitUrl :=
  let sr := parsedScheme url dflt
  let rest := sr.2
  let netloc := if rest.take 2 = ['/', '/'] then (rest.drop 2).takeWhile (fun c => !netlocEnd c) else []
  let rest := if rest.take 2 = ['/', '/'] then (rest.drop 2).dropWhile (fun c => !netlocEnd c) else rest
  let beforeFrag := rest.takeWhile (fun c => c ≠ '#')
  let frag := (rest.dropWhile (fun c => c ≠ '#')).drop 1
  let path := beforeFrag.takeWhile (fun c => c ≠ '?')
  let query := (beforeFrag.dropWhile (fun c => c ≠ '?')).drop 1
  ⟨sr.1, String.mk netloc, String.mk path, String.mk query, String.mk frag⟩

/-- `urlunsplit`, first step: reattach `//netloc` to the path when due. -/
def unsplitNetloc (p : SplitUrl) : List Char :=
  if p.netloc ≠ "" ∨ (p.path.data ≠ [] ∧ p.path.data.take 2 = ['/', '/']) then
    '/' :: '/' :: (p.netloc.data ++
      (if p.path.data ≠ [] ∧ p.path.data.take 1 ≠ ['/'] then '/' :: p.path.data else p.path.data))
  else p.path.data

/-- `urlunsplit`, second step: prepend `scheme:` when the scheme is nonempty. -/
def unsplitScheme (p : SplitUrl) : List Char :=
  if p.scheme ≠ "" then p.scheme.data ++ ':' :: unsplitNetloc p else unsplitNetloc p

/-- `urlunsplit`, third step: append `?query` when the query is nonempty. -/
def unsplitQuery (p : SplitUrl) : List Char :=
  if p.query ≠ "" then unsplitScheme p ++ '?' :: p.query.data else unsplitScheme p

/-- Model of `urllib.parse.urlunsplit`. -/
def urlunsplitL (p : SplitUrl) : List Char :=
  if p.fragment ≠ "" then unsplitQuery p ++ '#' :: p.fragment.data else unsplitQuery p

/-- CPython `uses_relative`. -/
def usesRelative : List String :=
  ["", "ftp", "http", "gopher", "nntp", "imap", "wais", "file", "https", "shttp",
   "mms", "prospero", "rtsp", "rtspu", "sftp", "svn", "svn+ssh", "ws", "wss"]

/-- CPython `uses_netloc`. -/
def usesNetloc : List String :=
  ["", "ftp", "http", "gopher", "nntp", "telnet", "imap", "wais", "file", "mms",
   "https", "shttp", "snews", "prospero", "rtsp", "rtspu", "rsync", "svn",
   "svn+ssh", "sftp", "nfs", "git", "git+ssh", "ws", "wss", "itms-services"]

/-- `segments[1:-1] = filter(None, segments[1:-1])` of `urljoin`: drop empty
segments that are neither first nor last. Helper for all but the first entry. -/
def filterMidAux : List (List Char) → List (List Char)
  | [] => []
  | [a] => [a]
  | a :: rest => if a = [] then filterMidAux rest else a :: filterMidAux rest

/-- Drop empty segments that are neither the first nor the last element. -/
def filterMid : List (List Char) → List (List Char)
  | [] => []
  | [a] => [a]
  | a :: rest => a :: filterMidAux rest

/-- The `'.'`/`'..'` resolution loop of `urljoin`. -/
def dotResolve (segs : List (List Char)) : List (List Char) :=
  segs.foldl (fun acc seg =>
    if seg = ['.', '.'] then acc.dropLast
    else if seg = ['.'] then acc
    else acc ++ [seg]) []

/-- The relative-path merge of `urljoin` (its final branch). -/
def mergePaths (bpath upath : List Char) : List Char :=
  let baseParts := pySplit '/' bpath
  let baseParts := if baseParts.getLast? ≠ some [] then baseParts.dropLast else baseParts
  let segments := if upath.take 1 = ['/'] then pySplit '/' upath
    else filterMid (baseParts ++ pySplit '/' upath)
  let resolved := dotResolve segments
  let resolved := if segments.getLast? = some ['.'] ∨ segments.getLast? = some ['.', '.'] then
      resolved ++ [[]]
    else resolved
  let joined := pyJoin '/' resolved
  if joined = [] then ['/'] else joined

/-- The component-level merge of `urljoin`, reached once the scheme checks
passed (`b` is the parsed base, `u` the parsed reference). -/
def urljoinParsed (b u : SplitUrl) : SplitUrl :=
  if u.scheme ∈ usesNetloc ∧ u.netloc ≠ "" then u
  else
    let netloc := if u.scheme ∈ usesNetloc then b.netloc else u.netloc
    if u.path = "" then
      ⟨u.scheme, netloc, b.path, (if u.query = "" then b.query else u.query), u.fragment⟩
    else
      ⟨u.scheme, netloc, String.mk (mergePaths b.path.data u.path.data), u.query, u.fragment⟩

/-- Model of `urllib.parse.urljoin` on character lists. -/
def urljoinL (base url : List Char) : List Char :=
  if base = [] then url
  else if url = [] then base
  else if (urlsplitL url (urlsplitL base "").scheme).scheme ≠ (urlsplitL base "").scheme
      ∨ (urlsplitL url (urlsplitL base "").scheme).scheme ∉ usesRelative then url
  else urlunsplitL (urljoinParsed (urlsplitL base "") (urlsplitL url (urlsplitL base "").scheme))

/-- Model of `urllib.parse.urljoin`, as called by `FullParser.handle_starttag`
(line 42 and line 50 of `scraper.py`). -/
def urljoin (base url : String) : String := String.mk (urljoinL base.data url.data)

/-- A string carries a URL scheme (`urlsplit` would detect one). -/
def hasScheme (s : String) : Bool := (findScheme s.data).isSome

/-- The string parses with scheme `http` or `https` — the spec's notion of an
absolute http/https base URL. -/
def isHttpUrl (s : String) : Bool :=
  match findScheme s.data with
  | some (sch, _) =>
    let l := String.mk (sch.map Char.toLower)
    l = "http" || l = "https"
  | none => false

/-! ## Model of `FILE_EXT_RE` (line 17 of `scraper.py`)

`re.compile(r"\.(pdf|zip|rar|exe|txt|docx|doc|xls|xlsx|pptx|ppt|csv|apk)$", re.I)`
used via `.search(url)`: it matches iff the *whole string* — up to an optional
single trailing newline, which `$` tolerates — ends, case-insensitively, with
a dot followed by one of the extensions. -/

/-- The extension alternatives of `FILE_EXT_RE`. -/
def fileExts : List String :=
  ["pdf", "zip", "rar", "exe", "txt", "docx", "doc", "xls", "xlsx", "pptx", "ppt", "csv", "apk"]

/-- Drop a single trailing newline (the position where `$` may also match). -/
def stripTrailingNL (s : String) : String :=
  if s.data.getLast? = some '\n' then String.mk s.data.dropLast else s

/-- `FILE_EXT_RE.search(s)` is truthy. -/
def fileExtMatch (s : String) : Bool :=
  fileExts.any (fun e => isSufL ('.' :: e.data) (pyLower (stripTrailingNL s)).data)

/-- Modelled from the spec: the §4.2 Resource Classifier, which tests the
URL's *path* component (query string and fragment ignored) against the
extension allowlist. This is the spec's wording, written for comparison with
`fileExtMatch`, the classifier actually found in the source. -/
def specIsDownloadableFile (s : String) : Bool :=
  fileExts.any (fun e => isSufL ('.' :: e.data) (pyLower (urlsplitL s.data "").path).data)

/-! ## Model of `FullParser` (lines 21–64 of `scraper.py`)

The parser reacts to the event stream of `html.parser.HTMLParser`
(start-tag, end-tag, data). Handlers are modelled as pure state
transformers; `feed` is a fold over the event list. -/

/-- One row of `attr_results`: `{"tag": tag, "attr": name, "value": value}`. -/
structure AttrEntry where
  tag : String
  attr : String
  value : String
deriving DecidableEq, Repr

/-- The mutable fields of `FullParser`. -/
structure ParserState where
  capturing : Option String
  text_results : List String
  attr_results : List AttrEntry
  links : List String
  images : List String
  files : List String
deriving DecidableEq, Repr

/-- The freshly constructed parser state (`FullParser.__init__`). -/
def initState : ParserState := ⟨none, [], [], [], [], []⟩

/-- The configuration fields of `FullParser.__init__`: tag/attribute names are
lowercased at construction (Python set comprehensions, lines 24–25). -/
structure ParserCfg where
  target_tags : List String
  target_attrs : List String
  base : String

/-- `FullParser(target_tags, target_attrs, base_url)`. -/
def mkParser (tags attrs : List String) (base : String) : ParserCfg :=
  ⟨tags.map pyLower, attrs.map pyLower, base⟩

/-- `dict(attrs)` insertion: duplicate keys keep their first position but take
the last value. -/
def dictInsert (acc : List (String × String)) (kv : String × String) : List (String × String) :=
  if acc.any (fun p => p.1 = kv.1) then
    acc.map (fun p => if p.1 = kv.1 then (p.1, kv.2) else p)
  else acc ++ [kv]

/-- Python `dict(attrs)` followed by `.items()`, as an association list. -/
def pyDict (l : List (String × String)) : List (String × String) := l.foldl dictInsert []

/-- The body of the `for name, val in attrs.items()` loop of
`handle_starttag` (lines 40–50): capture the attribute when requested, and
inside that guard classify `href` values into `links`/`files` and `src`
values into `images`. -/
def attrStep (cfg : ParserCfg) (tag : String) (st : ParserState) (p : String × String) :
    ParserState :=
  if pyLower p.1 ∈ cfg.target_attrs then
    let val_abs := urljoin cfg.base p.2
    let st1 := { st with attr_results := st.attr_results ++ [⟨tag, pyLower p.1, val_abs⟩] }
    let st2 :=
      if pyLower p.1 = "href" then
        let stl := { st1 with links := st1.links ++ [val_abs] }
        if fileExtMatch val_abs then { stl with files := stl.files ++ [val_abs] } else stl
      else st1
    if pyLower p.1 = "src" then { st2 with images := st2.images ++ [urljoin cfg.base p.2] }
    else st2
  else st

/-- `FullParser.handle_starttag` (lines 35–54). -/
def handle_starttag (cfg : ParserCfg) (st : ParserState) (tag : String)
    (attrs : List (String × String)) : ParserState :=
  let tagL := pyLower tag
  let st1 := (pyDict attrs).foldl (attrStep cfg tagL) st
  if tagL ∈ cfg.target_tags then { st1 with capturing := some tagL } else st1

/-- `FullParser.handle_endtag` (lines 56–58). -/
def handle_endtag (st : ParserState) (tag : String) : ParserState :=
  if st.capturing = some tag then { st with capturing := none } else st

/-- `FullParser.handle_data` (lines 60–64). `if self.capturing_tag:` is falsy
both for `None` and for the empty string. -/
def handle_data (st : ParserState) (d : String) : ParserState :=
  match st.capturing with
  | some t =>
    if t = "" then st
    else
      let txt := pyStrip d
      if txt = "" then st
      else { st with text_results := st.text_results ++ ["[" ++ t ++ "] " ++ txt] }
  | none => st

/-- The events `html.parser.HTMLParser` dispatches to `FullParser`. -/
inductive HEvent where
  | startTag (tag : String) (attrs : List (String × String))
  | endTag (tag : String)
  | text (s : String)
deriving DecidableEq, Repr

/-- Dispatch one event to the matching handler. -/
def handleEvent (cfg : ParserCfg) (st : ParserState) : HEvent → ParserState
  | .startTag t as => handle_starttag cfg st t as
  | .endTag t => handle_endtag st t
  | .text d => handle_data st d

/-- `parser.feed(html)` once the document is tokenized into events. -/
def feedEvents (cfg : ParserCfg) (events : List HEvent) (st : ParserState) : ParserState :=
  events.foldl (handleEvent cfg) st

/-! ## Streaming tokenizer

Modelled from the spec: §4.3 requires the Streaming Markup Parser (the
stdlib `html.parser.HTMLParser`, which is not part of `src/`) to emit
start-tag, end-tag and text events in document order, lowercasing tag names
and recovering from malformed markup without raising. This model covers
attribute-free markup, which is what the §8 Scenario B input exercises:
a `<` followed by a letter opens a start tag, `</` an end tag, everything
else is text. -/

/-- Fuel-indexed scan; the fuel is the input length, so it never runs out. -/
def tokenizeFuel : Nat → List Char → List HEvent
  | 0, _ => []
  | _ + 1, [] => []
  | fuel + 1, '<' :: rest =>
    match rest with
    | '/' :: r2 =>
      let name := r2.takeWhile (fun c => c ≠ '>')
      .endTag (pyLower (String.mk name)) :: tokenizeFuel fuel ((r2.dropWhile (fun c => c ≠ '>')).drop 1)
    | c :: _ =>
      if c.isAlpha then
        let name := rest.takeWhile (fun c => c ≠ '>')
        .startTag (pyLower (String.mk name)) [] :: tokenizeFuel fuel ((rest.dropWhile (fun c => c ≠ '>')).drop 1)
      else
        .text (String.mk ('<' :: rest.takeWhile (fun c => c ≠ '<'))) :: tokenizeFuel fuel (rest.dropWhile (fun c => c ≠ '<'))
    | [] => [.text "<"]
  | fuel + 1, c :: rest =>
    .text (String.mk (c :: rest.takeWhile (fun d => d ≠ '<'))) :: tokenizeFuel fuel (rest.dropWhile (fun d => d ≠ '<'))

/-- Tokenize a document into parser events. -/
def tokenize (s : String) : List HEvent := tokenizeFuel (s.data.length + 1) s.data

/-! ## Model of the worker (`ScraperApp._worker_scrape`, lines 257–330) -/

/-- The post-parse pass over `parser.links` (lines 277–280): when
"Collect Files" is on, every file-like link is appended to `parser.files`
once more; the result is the media list the download loop consumes. -/
def workerFiles (collectFiles : Bool) (st : ParserState) : List String :=
  if collectFiles then st.files ++ st.links.filter (fun l => fileExtMatch l) else st.files

/-- One download loop (lines 298–308 and 313–323): iterate the queue,
checking the shared stop flag before each item; `stop k` is the flag's value
when the `k`-th iteration of the run starts. The returned list holds the
URLs actually attempted. -/
def attempts (stop : Nat → Bool) : Nat → List String → List String
  | _, [] => []
  | k, u :: us => if stop k then [] else u :: attempts stop (k + 1) us

/-- The progress values `[s+1, s+2, …, s+n]` reported by `n` consecutive
`processed += 1; self._set_progress(processed)` steps. -/
def countUp : Nat → Nat → List Nat
  | _, 0 => []
  | s, n + 1 => (s + 1) :: countUp (s + 1) n

/-- The processed-count bookkeeping of the worker (lines 290–326): returns the
final value of `processed` and the sequence of values handed to
`_set_progress`, given the image and (post-pass) file queues. -/
def workerRun (downloadImages collectFiles : Bool) (stop : Nat → Bool)
    (images files : List String) : Nat × List Nat :=
  let ia := if downloadImages then attempts stop 0 images else []
  let p1 := if downloadImages then ia.length else images.length
  let r1 := if downloadImages then countUp 0 ia.length else [images.length]
  let fa := if collectFiles then attempts stop ia.length files else []
  let p2 := if collectFiles then p1 + fa.length else p1 + files.length
  let r2 := if collectFiles then countUp p1 fa.length else [p1 + files.length]
  (p2, r1 ++ r2)

/-- Everything `_worker_scrape` produces past the UI: the error log entry of
the `except` branch, the parser's result collections (with `files` already
extended by the collect pass), and the two download queues attempted. -/
structure WorkerOutcome where
  errorLog : Option String
  text_results : List String
  attr_results : List AttrEntry
  links : List String
  images : List String
  files : List String
  imageAttempts : List String
  fileAttempts : List String
deriving DecidableEq, Repr

/-- `ScraperApp._worker_scrape` (lines 257–330) with the fetch outcome passed
in explicitly: on a fetch error it logs and returns before any parsing; on
success it parses, runs the collect pass and the two download loops. -/
def workerScrape (fetched : Except String String) (tags attrs : List String) (url : String)
    (downloadImages collectFiles : Bool) (stop : Nat → Bool) : WorkerOutcome :=
  match fetched with
  | .error e => ⟨some ("[ERROR] " ++ e), [], [], [], [], [], [], []⟩
  | .ok html =>
    let cfg := mkParser tags attrs url
    let st := feedEvents cfg (tokenize html) initState
    let filesFinal := workerFiles collectFiles st
    let ia := if downloadImages then attempts stop 0 st.images else []
    let fa := if collectFiles then attempts stop ia.length filesFinal else []
    ⟨none, st.text_results, st.attr_results, st.links, st.images, filesFinal, ia, fa⟩

/-! ## `start_scrape` validation and `download_file_if_possible` paths -/

/-- The pre-fetch validation of `ScraperApp.start_scrape` (lines 224–227):
the stripped URL must start with the literal string `"http"`; otherwise the
operation errors out synchronously, before the worker thread (and hence any
network activity) is started. -/
def startScrapeAccepts (url : String) : Bool :=
  "http".data.isPrefixOf (pyStrip url).data

/-- `os.path.basename` for POSIX paths: the part after the last `/`. -/
def pyBasename (s : String) : String :=
  String.mk (s.data.reverse.takeWhile (fun c => c ≠ '/')).reverse

/-- The filename `download_file_if_possible` derives (line 449):
`os.path.basename(url.split("?")[0])`, or `none` when that is empty (the code
then falls back to a time-based name). -/
def derivedFilename (url : String) : Option String :=
  let b := pyBasename (String.mk (url.data.takeWhile (fun c => c ≠ '?')))
  if b = "" then none else some b

/-- `os.path.join(folder, name)` for a relative `name` without separators. -/
def joinPath (folder name : String) : String :=
  if folder = "" then name
  else if folder.data.getLast? = some '/' then folder ++ name
  else folder ++ "/" ++ name

/-- The destination path of `download_file_if_possible` (line 450), when the
derived filename is not empty. -/
def destPath (url folder : String) : Option String :=
  (derivedFilename url).map (fun n => joinPath folder n)

/-- Store `v` under key `k`, replacing an existing binding in place —
the effect of `urlretrieve(url, dest)` on the destination directory, which
silently overwrites an existing file at `dest`. -/
def upsert (fs : List (String × String)) (k v : String) : List (String × String) :=
  if fs.any (fun p => p.1 = k) then fs.map (fun p => if p.1 = k then (p.1, v) else p)
  else fs ++ [(k, v)]

/-- Final directory contents (path ↦ source URL) after downloading `urls` in
order into `folder`, for runs where every URL derives a nonempty filename. -/
def runDownloads (folder : String) (urls : List String) : List (String × String) :=
  urls.foldl (fun fs u =>
    match destPath u folder with
    | some d => upsert fs d u
    | none => fs) []

example : urljoin "https://e.co/" "btn" = "https://e.co/btn" := by decide
example : urljoin "https://e.co" "x.pdf" = "https://e.co/x.pdf" := by decide
example : urljoin "https://e.co/a/b" "../c" = "https://e.co/c" := by decide
example : urljoin "https://e.co/a" "//other.org/z" = "https://other.org/z" := by decide
example : urljoin "https://e.co/a" "mailto:x@y" = "mailto:x@y" := by decide
example : urljoin "https://e.co/a/b?q=1" "?z=2" = "https://e.co/a/b?z=2" := by decide
example : fileExtMatch "https://e.co/x.PDF" = true := by decide
example : fileExtMatch "https://e.co/x.pdf?dl=1" = false := by decide
example : fileExtMatch "https://e.co/get?file=a.pdf" = true := by decide
example : specIsDownloadableFile "https://e.co/x.pdf?dl=1" = true := by decide
example : hasScheme "mailto:x@y" = true := by decide
example : isHttpUrl "HTTP://E.CO" = true := by decide
example : isHttpUrl "example.com" = false := by decide
example : tokenize "<p>Unclosed<p>Next" =
    [.startTag "p" [], .text "Unclosed", .startTag "p" [], .text "Next"] := by decide
example : (feedEvents (mkParser ["p"] [] "https://e.co") (tokenize "<p>Unclosed<p>Next")
    initState).text_results = ["[p] Unclosed", "[p] Next"] := by decide
example : (feedEvents (mkParser [] ["class"] "https://e.co/")
    [.startTag "div" [("class", "btn")]] initState).attr_results
    = [⟨"div", "class", "https://e.co/btn"⟩] := by decide
example : (feedEvents (mkParser [] ["class"] "https://e.co/")
    [.startTag "a" [("href", "https://e.co/x.pdf"), ("src", "i.png")]] initState).links
    = [] := by decide
example :
    workerFiles true (feedEvents (mkParser [] ["href"] "https://e.co/")
      [.startTag "a" [("href", "x.pdf")]] initState)
    = ["https://e.co/x.pdf", "https://e.co/x.pdf"] := by decide
example : startScrapeAccepts "httpgarbage" = true := by decide
example : startScrapeAccepts " https://e.co " = true := by decide
example : startScrapeAccepts "HTTP://E.CO" = false := by decide
example : destPath "https://e.co/a/f.pdf?x=1" "scraped_files" = some "scraped_files/f.pdf" := by
  decide
example : workerRun true true (fun _ => true) ["https://e.co/i.png"] [] = (0, []) := by decide
example : workerRun true false (fun _ => false) ["https://e.co/a.png", "https://e.co/b.png"] []
    = (2, [1, 2, 2]) := by decide

/-! ## Lemmas about the URL resolver -/

lemma urlsplitL_scheme (url : List Char) (d : String) :
    (urlsplitL url d).scheme = (parsedScheme url d).1 := rfl

lemma parsedScheme_of_none {url : List Char} {d : String} (h : findScheme url = none) :
    parsedScheme url d = (d, url) := by simp [parsedScheme, h]

lemma isHttp_hasScheme {s : String} (h : isHttpUrl s = true) : hasScheme s = true := by
  unfold isHttpUrl at h
  unfold hasScheme
  cases hf : findScheme s.data with
  | none => rw [hf] at h; simp at h
  | some p => simp

lemma isHttp_ne_nil {s : String} (h : isHttpUrl s = true) : s.data ≠ [] := by
  intro he
  unfold isHttpUrl at h
  rw [he] at h
  simp [findScheme] at h

lemma isHttp_scheme {s : String} (h : isHttpUrl s = true) :
    (urlsplitL s.data "").scheme = "http" ∨ (urlsplitL s.data "").scheme = "https" := by
  unfold isHttpUrl at h
  cases hf : findScheme s.data with
  | none => rw [hf] at h; simp at h
  | some p =>
    rw [hf] at h
    rw [urlsplitL_scheme]
    unfold parsedScheme
    rw [hf]
    simpa using h

lemma findSchemeAux_append {acc l : List Char} {s r : List Char} (m : List Char)
    (h : findSchemeAux acc l = some (s, r)) :
    findSchemeAux acc (l ++ m) = some (s, r ++ m) := by
  induction l generalizing acc with
  | nil => simp [findSchemeAux] at h
  | cons c cs ih =>
    rw [List.cons_append]
    simp only [findSchemeAux] at h ⊢
    by_cases hc : c = ':'
    · simp only [if_pos hc] at h ⊢
      obtain ⟨h1, h2⟩ : acc.reverse = s ∧ cs = r := by simpa using h
      simp [h1, h2]
    · rw [if_neg hc] at h ⊢
      by_cases hsc : schemeChar c = true
      · rw [if_pos hsc] at h ⊢
        exact ih h
      · rw [if_neg hsc] at h
        exact absurd h (by simp)

lemma findScheme_append {l : List Char} {s r : List Char} (m : List Char)
    (h : findScheme l = some (s, r)) :
    findScheme (l ++ m) = some (s, r ++ m) := by
  cases l with
  | nil => simp [findScheme] at h
  | cons c cs =>
    rw [List.cons_append]
    simp only [findScheme] at h ⊢
    by_cases ha : c.isAlpha = true
    · rw [if_pos ha] at h ⊢
      exact findSchemeAux_append m h
    · rw [if_neg ha] at h
      exact absurd h (by simp)

lemma findScheme_http (rest : List Char) :
    findScheme ('h' :: 't' :: 't' :: 'p' :: ':' :: rest) = some (['h', 't', 't', 'p'], rest) := rfl

lemma findScheme_https (rest : List Char) :
    findScheme ('h' :: 't' :: 't' :: 'p' :: 's' :: ':' :: rest)
      = some (['h', 't', 't', 'p', 's'], rest) := rfl

lemma findScheme_isSome_append {l : List Char} (m : List Char)
    (h : (findScheme l).isSome = true) : (findScheme (l ++ m)).isSome = true := by
  cases hf : findScheme l with
  | none => rw [hf] at h; simp at h
  | some p => rw [findScheme_append m (by rw [hf])]; rfl

lemma findScheme_scheme_colon (sch : String) (h : sch = "http" ∨ sch = "https")
    (rest : List Char) : (findScheme (sch.data ++ ':' :: rest)).isSome = true := by
  rcases h with h | h <;> subst h
  · rw [show ("http" : String).data ++ ':' :: rest = 'h' :: 't' :: 't' :: 'p' :: ':' :: rest
      from rfl, findScheme_http]
    rfl
  · rw [show ("https" : String).data ++ ':' :: rest
      = 'h' :: 't' :: 't' :: 'p' :: 's' :: ':' :: rest from rfl, findScheme_https]
    rfl

lemma hasScheme_urlunsplit (p : SplitUrl) (h : p.scheme = "http" ∨ p.scheme = "https") :
    hasScheme (String.mk (urlunsplitL p)) = true := by
  have hne : ¬ p.scheme = "" := by rcases h with h | h <;> simp [h]
  have h2 : (findScheme (unsplitScheme p)).isSome = true := by
    unfold unsplitScheme
    rw [if_pos hne]
    exact findScheme_scheme_colon p.scheme h (unsplitNetloc p)
  have h3 : (findScheme (unsplitQuery p)).isSome = true := by
    unfold unsplitQuery
    by_cases hq : p.query = ""
    · rw [if_neg (by simp [hq])]
      exact h2
    · rw [if_pos hq]
      exact findScheme_isSome_append _ h2
  unfold hasScheme urlunsplitL
  by_cases hf : p.fragment = ""
  · rw [if_neg (by simp [hf])]
    exact h3
  · rw [if_pos hf]
    exact findScheme_isSome_append _ h3

lemma urljoinParsed_scheme (b u : SplitUrl) : (urljoinParsed b u).scheme = u.scheme := by
  unfold urljoinParsed
  split_ifs <;> rfl

theorem hasScheme_urljoin (base url : String) (hb : isHttpUrl base = true) :
    hasScheme (urljoin base url) = true := by
  unfold urljoin urljoinL
  rw [if_neg (isHttp_ne_nil hb)]
  by_cases hu : url.data = []
  · rw [if_pos hu]
    exact isHttp_hasScheme hb
  · rw [if_neg hu]
    have hbs := isHttp_scheme hb
    by_cases hcase : (urlsplitL url.data (urlsplitL base.data "").scheme).scheme
        ≠ (urlsplitL base.data "").scheme
      ∨ (urlsplitL url.data (urlsplitL base.data "").scheme).scheme ∉ usesRelative
    · rw [if_pos hcase]
      have hne : (urlsplitL url.data (urlsplitL base.data "").scheme).scheme
          ≠ (urlsplitL base.data "").scheme := by
        rcases hcase with h | h
        · exact h
        · intro he
          apply h
          rw [he]
          rcases hbs with hh | hh <;> rw [hh] <;> decide
      cases hfu : findScheme url.data with
      | none =>
        exfalso
        apply hne
        rw [urlsplitL_scheme, parsedScheme_of_none hfu]
      | some p => simp [hasScheme, hfu]
    · rw [if_neg hcase]
      push_neg at hcase
      apply hasScheme_urlunsplit
      rw [urljoinParsed_scheme, hcase.1]
      exact hbs

/-! ## Projection lemmas for the parser handlers -/

lemma attrStep_capturing (cfg : ParserCfg) (tag : String) (st : ParserState)
    (p : String × String) : (attrStep cfg tag st p).capturing = st.capturing := by
  simp only [attrStep]
  split_ifs <;> rfl

lemma attrStep_text (cfg : ParserCfg) (tag : String) (st : ParserState)
    (p : String × String) : (attrStep cfg tag st p).text_results = st.text_results := by
  simp only [attrStep]
  split_ifs <;> rfl

lemma attrStep_attrs (cfg : ParserCfg) (tag : String) (st : ParserState) (p : String × String) :
    (attrStep cfg tag st p).attr_results = st.attr_results ++
      (if pyLower p.1 ∈ cfg.target_attrs then [⟨tag, pyLower p.1, urljoin cfg.base p.2⟩] else []) := by
  simp only [attrStep]
  split_ifs <;> simp

lemma attrStep_links (cfg : ParserCfg) (tag : String) (st : ParserState) (p : String × String) :
    (attrStep cfg tag st p).links = st.links ++
      (if pyLower p.1 ∈ cfg.target_attrs ∧ pyLower p.1 = "href" then [urljoin cfg.base p.2]
       else []) := by
  by_cases h1 : pyLower p.1 ∈ cfg.target_attrs
  · by_cases h2 : pyLower p.1 = "href"
    · rw [h2] at h1
      by_cases h3 : fileExtMatch (urljoin cfg.base p.2) = true
      · simp [attrStep, h1, h2, h3]
      · simp [attrStep, h1, h2, h3]
    · by_cases h4 : pyLower p.1 = "src"
      · rw [h4] at h1
        simp [attrStep, h1, h2, h4]
      · simp [attrStep, h1, h2, h4]
  · simp [attrStep, h1]

lemma attrStep_images (cfg : ParserCfg) (tag : String) (st : ParserState) (p : String × String) :
    (attrStep cfg tag st p).images = st.images ++
      (if pyLower p.1 ∈ cfg.target_attrs ∧ pyLower p.1 = "src" then [urljoin cfg.base p.2]
       else []) := by
  by_cases h1 : pyLower p.1 ∈ cfg.target_attrs
  · by_cases h2 : pyLower p.1 = "href"
    · rw [h2] at h1
      by_cases h3 : fileExtMatch (urljoin cfg.base p.2) = true
      · simp [attrStep, h1, h2, h3]
      · simp [attrStep, h1, h2, h3]
    · by_cases h4 : pyLower p.1 = "src"
      · rw [h4] at h1
        simp [attrStep, h1, h2, h4]
      · simp [attrStep, h1, h2, h4]
  · simp [attrStep, h1]

lemma attrStep_files (cfg : ParserCfg) (tag : String) (st : ParserState) (p : String × String) :
    (attrStep cfg tag st p).files = st.files ++
      (if pyLower p.1 ∈ cfg.target_attrs ∧ pyLower p.1 = "href"
          ∧ fileExtMatch (urljoin cfg.base p.2) = true then [urljoin cfg.base p.2]
       else []) := by
  by_cases h1 : pyLower p.1 ∈ cfg.target_attrs
  · by_cases h2 : pyLower p.1 = "href"
    · rw [h2] at h1
      by_cases h3 : fileExtMatch (urljoin cfg.base p.2) = true
      · simp [attrStep, h1, h2, h3]
      · simp [attrStep, h1, h2, h3]
    · by_cases h4 : pyLower p.1 = "src"
      · rw [h4] at h1
        simp [attrStep, h1, h2, h4]
      · simp [attrStep, h1, h2, h4]
  · simp [attrStep, h1]

lemma foldAttrs_capturing (cfg : ParserCfg) (tag : String) (l : List (String × String)) :
    ∀ st : ParserState, (l.foldl (attrStep cfg tag) st).capturing = st.capturing := by
  induction l with
  | nil => intro st; rfl
  | cons p ps ih => intro st; rw [List.foldl_cons, ih, attrStep_capturing]

lemma foldAttrs_text (cfg : ParserCfg) (tag : String) (l : List (String × String)) :
    ∀ st : ParserState, (l.foldl (attrStep cfg tag) st).text_results = st.text_results := by
  induction l with
  | nil => intro st; rfl
  | cons p ps ih => intro st; rw [List.foldl_cons, ih, attrStep_text]

lemma handle_starttag_capturing (cfg : ParserCfg) (st : ParserState) (tag : String)
    (attrs : List (String × String)) :
    (handle_starttag cfg st tag attrs).capturing =
      if pyLower tag ∈ cfg.target_tags then some (pyLower tag) else st.capturing := by
  simp only [handle_starttag]
  split_ifs <;> simp [foldAttrs_capturing]

lemma handle_starttag_text (cfg : ParserCfg) (st : ParserState) (tag : String)
    (attrs : List (String × String)) :
    (handle_starttag cfg st tag attrs).text_results = st.text_results := by
  simp only [handle_starttag]
  split_ifs <;> simp [foldAttrs_text]

lemma handle_endtag_capturing (st : ParserState) (tag : String) :
    (handle_endtag st tag).capturing =
      if st.capturing = some tag then none else st.capturing := by
  simp only [handle_endtag]
  split_ifs <;> rfl

lemma handle_data_capturing (st : ParserState) (d : String) :
    (handle_data st d).capturing = st.capturing := by
  obtain ⟨cap, tr, ar, ls, im, fs⟩ := st
  cases cap with
  | none => rfl
  | some t =>
    simp only [handle_data]
    split_ifs <;> rfl

lemma handle_data_links (st : ParserState) (d : String) :
    (handle_data st d).links = st.links := by
  obtain ⟨cap, tr, ar, ls, im, fs⟩ := st
  cases cap with
  | none => rfl
  | some t =>
    simp only [handle_data]
    split_ifs <;> rfl

lemma handle_data_images (st : ParserState) (d : String) :
    (handle_data st d).images = st.images := by
  obtain ⟨cap, tr, ar, ls, im, fs⟩ := st
  cases cap with
  | none => rfl
  | some t =>
    simp only [handle_data]
    split_ifs <;> rfl

lemma handle_data_files (st : ParserState) (d : String) :
    (handle_data st d).files = st.files := by
  obtain ⟨cap, tr, ar, ls, im, fs⟩ := st
  cases cap with
  | none => rfl
  | some t =>
    simp only [handle_data]
    split_ifs <;> rfl

lemma handle_data_attrs (st : ParserState) (d : String) :
    (handle_data st d).attr_results = st.attr_results := by
  obtain ⟨cap, tr, ar, ls, im, fs⟩ := st
  cases cap with
  | none => rfl
  | some t =>
    simp only [handle_data]
    split_ifs <;> rfl

lemma handle_endtag_only_capturing (st : ParserState) (tag : String) :
    (handle_endtag st tag).text_results = st.text_results ∧
    (handle_endtag st tag).links = st.links ∧
    (handle_endtag st tag).images = st.images ∧
    (handle_endtag st tag).files = st.files := by
  simp only [handle_endtag]
  split_ifs <;> exact ⟨rfl, rfl, rfl, rfl⟩

/-! ## The files/links invariant (lines 45–48): during parsing, `files` is
exactly the file-like sublist of `links`. -/

/-- `st.files` is the `FILE_EXT_RE`-matching sublist of `st.links`. -/
def FilesInv (st : ParserState) : Prop :=
  st.files = st.links.filter (fun l => fileExtMatch l)

lemma attrStep_filesInv {cfg : ParserCfg} {tag : String} {st : ParserState}
    (p : String × String) (h : FilesInv st) : FilesInv (attrStep cfg tag st p) := by
  unfold FilesInv at h ⊢
  rw [attrStep_files, attrStep_links, List.filter_append, h]
  by_cases h1 : pyLower p.1 ∈ cfg.target_attrs ∧ pyLower p.1 = "href"
  · rw [if_pos h1]
    by_cases h3 : fileExtMatch (urljoin cfg.base p.2) = true
    · rw [if_pos ⟨h1.1, h1.2, h3⟩]
      simp [List.filter_cons, h3]
    · rw [if_neg (by tauto)]
      simp [List.filter_cons, h3]
  · rw [if_neg h1, if_neg (by tauto)]
    simp

lemma foldAttrs_filesInv {cfg : ParserCfg} {tag : String} (l : List (String × String)) :
    ∀ {st : ParserState}, FilesInv st → FilesInv (l.foldl (attrStep cfg tag) st) := by
  induction l with
  | nil => intro st h; exact h
  | cons p ps ih => intro st h; exact ih (attrStep_filesInv p h)

lemma handleEvent_filesInv {cfg : ParserCfg} {st : ParserState} (e : HEvent)
    (h : FilesInv st) : FilesInv (handleEvent cfg st e) := by
  cases e with
  | startTag t as =>
    show FilesInv (handle_starttag cfg st t as)
    unfold FilesInv at h ⊢
    simp only [handle_starttag]
    split_ifs <;> exact foldAttrs_filesInv (pyDict as) h
  | endTag t =>
    unfold FilesInv at h ⊢
    simp only [handleEvent]
    rw [(handle_endtag_only_capturing st t).2.1, (handle_endtag_only_capturing st t).2.2.2, h]
  | text d =>
    unfold FilesInv at h ⊢
    simp only [handleEvent]
    rw [handle_data_links, handle_data_files, h]

lemma feed_filesInv (cfg : ParserCfg) (events : List HEvent) :
    ∀ {st : ParserState}, FilesInv st → FilesInv (feedEvents cfg events st) := by
  induction events with
  | nil => intro st h; exact h
  | cons e es ih => intro st h; exact ih (handleEvent_filesInv e h)

lemma feed_files_eq (cfg : ParserCfg) (events : List HEvent) :
    (feedEvents cfg events initState).files
      = (feedEvents cfg events initState).links.filter (fun l => fileExtMatch l) :=
  feed_filesInv cfg events (by simp [FilesInv, initState])

/-! ## The absolute-URL invariant: every classified URL went through
`urljoin` against the base, hence carries a scheme when the base does. -/

/-- Every URL in the three classified collections carries a scheme. -/
def SchemeInv (st : ParserState) : Prop :=
  (∀ u ∈ st.links, hasScheme u = true) ∧ (∀ u ∈ st.images, hasScheme u = true) ∧
  (∀ u ∈ st.files, hasScheme u = true)

lemma mem_ite_singleton {u v : String} {c : Prop} [Decidable c]
    (hu : u ∈ (if c then [v] else [])) : u = v := by
  split_ifs at hu <;> simpa using hu

lemma attrStep_schemeInv {cfg : ParserCfg} {tag : String} {st : ParserState}
    (p : String × String) (hb : isHttpUrl cfg.base = true) (h : SchemeInv st) :
    SchemeInv (attrStep cfg tag st p) := by
  obtain ⟨hl, hi, hf⟩ := h
  refine ⟨?_, ?_, ?_⟩ <;> intro u hu
  · rw [attrStep_links] at hu
    rcases List.mem_append.mp hu with hu | hu
    · exact hl u hu
    · rw [mem_ite_singleton hu]
      exact hasScheme_urljoin _ _ hb
  · rw [attrStep_images] at hu
    rcases List.mem_append.mp hu with hu | hu
    · exact hi u hu
    · rw [mem_ite_singleton hu]
      exact hasScheme_urljoin _ _ hb
  · rw [attrStep_files] at hu
    rcases List.mem_append.mp hu with hu | hu
    · exact hf u hu
    · rw [mem_ite_singleton hu]
      exact hasScheme_urljoin _ _ hb

lemma foldAttrs_schemeInv {cfg : ParserCfg} {tag : String} (l : List (String × String))
    (hb : isHttpUrl cfg.base = true) :
    ∀ {st : ParserState}, SchemeInv st → SchemeInv (l.foldl (attrStep cfg tag) st) := by
  induction l with
  | nil => intro st h; exact h
  | cons p ps ih => intro st h; exact ih (attrStep_schemeInv p hb h)

lemma handleEvent_schemeInv {cfg : ParserCfg} {st : ParserState} (e : HEvent)
    (hb : isHttpUrl cfg.base = true) (h : SchemeInv st) : SchemeInv (handleEvent cfg st e) := by
  cases e with
  | startTag t as =>
    show SchemeInv (handle_starttag cfg st t as)
    unfold SchemeInv at h ⊢
    simp only [handle_starttag]
    split_ifs <;> exact foldAttrs_schemeInv (pyDict as) hb h
  | endTag t =>
    unfold SchemeInv at h ⊢
    simp only [handleEvent]
    rw [(handle_endtag_only_capturing st t).2.1, (handle_endtag_only_capturing st t).2.2.1,
      (handle_endtag_only_capturing st t).2.2.2]
    exact h
  | text d =>
    unfold SchemeInv at h ⊢
    simp only [handleEvent]
    rw [handle_data_links, handle_data_images, handle_data_files]
    exact h

lemma feed_schemeInv (cfg : ParserCfg) (events : List HEvent) (hb : isHttpUrl cfg.base = true) :
    ∀ {st : ParserState}, SchemeInv st → SchemeInv (feedEvents cfg events st) := by
  induction events with
  | nil => intro st h; exact h
  | cons e es ih => intro st h; exact ih (handleEvent_schemeInv e hb h)

/-! ## The capturing invariant: `capturing_tag` only ever holds configured
(lowercased) tag names. -/

/-- The open capture, when present, is a configured tag. -/
def CapInv (cfg : ParserCfg) (st : ParserState) : Prop :=
  ∀ t, st.capturing = some t → t ∈ cfg.target_tags

lemma handleEvent_capInv {cfg : ParserCfg} {st : ParserState} (e : HEvent)
    (h : CapInv cfg st) : CapInv cfg (handleEvent cfg st e) := by
  cases e with
  | startTag t as =>
    intro x hx
    rw [show handleEvent cfg st (.startTag t as) = handle_starttag cfg st t as from rfl,
      handle_starttag_capturing] at hx
    split_ifs at hx with hc
    · obtain rfl : x = pyLower t := by simpa using hx.symm
      exact hc
    · exact h x hx
  | endTag t =>
    intro x hx
    rw [show handleEvent cfg st (.endTag t) = handle_endtag st t from rfl,
      handle_endtag_capturing] at hx
    split_ifs at hx
    exact h x hx
  | text d =>
    intro x hx
    rw [show handleEvent cfg st (.text d) = handle_data st d from rfl,
      handle_data_capturing] at hx
    exact h x hx

lemma feed_capInv (cfg : ParserCfg) (events : List HEvent) :
    ∀ {st : ParserState}, CapInv cfg st → CapInv cfg (feedEvents cfg events st) := by
  induction events with
  | nil => intro st h; exact h
  | cons e es ih => intro st h; exact ih (handleEvent_capInv e h)

/-! ## Lemmas about the worker loops -/

lemma attempts_of_never {stop : Nat → Bool} (h : ∀ n, stop n = false) :
    ∀ (k : Nat) (l : List String), attempts stop k l = l := by
  intro k l
  induction l generalizing k with
  | nil => rfl
  | cons u us ih => simp [attempts, h k, ih]

lemma countUp_head? (s n : Nat) :
    (countUp s n).head? = if n = 0 then none else some (s + 1) := by
  cases n <;> rfl

lemma countUp_getLast? (s n : Nat) :
    (countUp s (n + 1)).getLast? = some (s + (n + 1)) := by
  induction n generalizing s with
  | zero => rfl
  | succ m ih =>
    rw [show countUp s (m + 2) = (s + 1) :: (s + 2) :: countUp (s + 2) m from rfl,
      List.getLast?_cons_cons,
      show (s + 2) :: countUp (s + 2) m = countUp (s + 1) (m + 1) from rfl, ih]
    congr 1
    omega

lemma countUp_last_eq (s n : Nat) : ∀ x ∈ (countUp s n).getLast?, x = s + n := by
  intro x hx
  cases n with
  | zero => simp [countUp] at hx
  | succ m =>
    rw [countUp_getLast?] at hx
    exact (by simpa using hx : s + (m + 1) = x).symm

lemma countUp_length (s n : Nat) : (countUp s n).length = n := by
  induction n generalizing s with
  | zero => rfl
  | succ m ih => simp [countUp, ih]

lemma chain_le_countUp (s n : Nat) : List.Chain' (· ≤ ·) (countUp s n) := by
  induction n generalizing s with
  | zero => simp [countUp]
  | succ m ih =>
    rw [show countUp s (m + 1) = (s + 1) :: countUp (s + 1) m from rfl, List.chain'_cons']
    refine ⟨?_, ih (s + 1)⟩
    intro y hy
    rw [countUp_head?] at hy
    split_ifs at hy with hm
    · simp at hy
    · obtain rfl : s + 1 + 1 = y := by simpa using hy
      omega

lemma chain_glue (l1 l2 : List Nat) (p : Nat) (h1 : List.Chain' (· ≤ ·) l1)
    (h2 : List.Chain' (· ≤ ·) l2) (hl : ∀ x ∈ l1.getLast?, x ≤ p)
    (hh : ∀ y ∈ l2.head?, p ≤ y) : List.Chain' (· ≤ ·) (l1 ++ l2) := by
  rw [List.chain'_append]
  exact ⟨h1, h2, fun x hx y hy => le_trans (hl x hx) (hh y hy)⟩

/-! ## Remaining helper lemmas for the claim theorems -/

lemma handle_starttag_attrs (cfg : ParserCfg) (st : ParserState) (tag : String)
    (attrs : List (String × String)) :
    (handle_starttag cfg st tag attrs).attr_results
      = ((pyDict attrs).foldl (attrStep cfg (pyLower tag)) st).attr_results := by
  simp only [handle_starttag]
  split_ifs <;> rfl

lemma handle_starttag_links (cfg : ParserCfg) (st : ParserState) (tag : String)
    (attrs : List (String × String)) :
    (handle_starttag cfg st tag attrs).links
      = ((pyDict attrs).foldl (attrStep cfg (pyLower tag)) st).links := by
  simp only [handle_starttag]
  split_ifs <;> rfl

lemma handle_starttag_images (cfg : ParserCfg) (st : ParserState) (tag : String)
    (attrs : List (String × String)) :
    (handle_starttag cfg st tag attrs).images
      = ((pyDict attrs).foldl (attrStep cfg (pyLower tag)) st).images := by
  simp only [handle_starttag]
  split_ifs <;> rfl

lemma handle_starttag_files (cfg : ParserCfg) (st : ParserState) (tag : String)
    (attrs : List (String × String)) :
    (handle_starttag cfg st tag attrs).files
      = ((pyDict attrs).foldl (attrStep cfg (pyLower tag)) st).files := by
  simp only [handle_starttag]
  split_ifs <;> rfl

lemma foldAttrs_links_no_href {cfg : ParserCfg} {tag : String}
    (h : "href" ∉ cfg.target_attrs) (l : List (String × String)) :
    ∀ st : ParserState, (l.foldl (attrStep cfg tag) st).links = st.links := by
  induction l with
  | nil => intro st; rfl
  | cons p ps ih =>
    intro st
    rw [List.foldl_cons, ih, attrStep_links,
      if_neg (by rintro ⟨h1, h2⟩; exact h (h2 ▸ h1)), List.append_nil]

lemma foldAttrs_files_no_href {cfg : ParserCfg} {tag : String}
    (h : "href" ∉ cfg.target_attrs) (l : List (String × String)) :
    ∀ st : ParserState, (l.foldl (attrStep cfg tag) st).files = st.files := by
  induction l with
  | nil => intro st; rfl
  | cons p ps ih =>
    intro st
    rw [List.foldl_cons, ih, attrStep_files,
      if_neg (by rintro ⟨h1, h2, h3⟩; exact h (h2 ▸ h1)), List.append_nil]

lemma foldAttrs_images_no_src {cfg : ParserCfg} {tag : String}
    (h : "src" ∉ cfg.target_attrs) (l : List (String × String)) :
    ∀ st : ParserState, (l.foldl (attrStep cfg tag) st).images = st.images := by
  induction l with
  | nil => intro st; rfl
  | cons p ps ih =>
    intro st
    rw [List.foldl_cons, ih, attrStep_images,
      if_neg (by rintro ⟨h1, h2⟩; exact h (h2 ▸ h1)), List.append_nil]

lemma feed_links_no_href {cfg : ParserCfg} (h : "href" ∉ cfg.target_attrs)
    (events : List HEvent) :
    ∀ st : ParserState, (feedEvents cfg events st).links = st.links := by
  induction events with
  | nil => intro st; rfl
  | cons e es ih =>
    intro st
    show (feedEvents cfg es (handleEvent cfg st e)).links = st.links
    rw [ih]
    cases e with
    | startTag t as => rw [show handleEvent cfg st (.startTag t as) = handle_starttag cfg st t as from rfl, handle_starttag_links, foldAttrs_links_no_href h]
    | endTag t => exact (handle_endtag_only_capturing st t).2.1
    | text d => exact handle_data_links st d

lemma feed_files_no_href {cfg : ParserCfg} (h : "href" ∉ cfg.target_attrs)
    (events : List HEvent) :
    ∀ st : ParserState, (feedEvents cfg events st).files = st.files := by
  induction events with
  | nil => intro st; rfl
  | cons e es ih =>
    intro st
    show (feedEvents cfg es (handleEvent cfg st e)).files = st.files
    rw [ih]
    cases e with
    | startTag t as => rw [show handleEvent cfg st (.startTag t as) = handle_starttag cfg st t as from rfl, handle_starttag_files, foldAttrs_files_no_href h]
    | endTag t => exact (handle_endtag_only_capturing st t).2.2.2
    | text d => exact handle_data_files st d

lemma feed_images_no_src {cfg : ParserCfg} (h : "src" ∉ cfg.target_attrs)
    (events : List HEvent) :
    ∀ st : ParserState, (feedEvents cfg events st).images = st.images := by
  induction events with
  | nil => intro st; rfl
  | cons e es ih =>
    intro st
    show (feedEvents cfg es (handleEvent cfg st e)).images = st.images
    rw [ih]
    cases e with
    | startTag t as => rw [show handleEvent cfg st (.startTag t as) = handle_starttag cfg st t as from rfl, handle_starttag_images, foldAttrs_images_no_src h]
    | endTag t => exact (handle_endtag_only_capturing st t).2.2.1
    | text d => exact handle_data_images st d

lemma isSufL_iff (suf l : List Char) : isSufL suf l = true ↔ suf <:+ l := by
  rw [isSufL, List.isPrefixOf_iff_prefix, List.reverse_prefix]

lemma count_filter_fileExt (u : String) (h : fileExtMatch u = true) (l : List String) :
    (l.filter (fun x => fileExtMatch x)).count u = l.count u := by
  induction l with
  | nil => rfl
  | cons a l ih =>
    rw [List.filter_cons]
    by_cases ha : fileExtMatch a = true
    · simp only [ha, if_pos]
      rw [List.count_cons, List.count_cons, ih]
    · have hne : ¬ a = u := fun he => ha (he ▸ h)
      simp only [ha, Bool.false_eq_true, if_false]
      rw [ih, List.count_cons, if_neg (by simp [hne]), Nat.add_zero]

/-! ## Claim C1 -/

/-- C1, counterexample: a start tag carrying both an `href` and a `src`
attribute, against a configuration whose `captureAttributes` is `{class}`,
classifies nothing — `links`, `images` and `files` all stay empty, so the
claimed unconditional classification (independent of `captureAttributes`)
does not hold. -/
theorem classification_unconditional_cex :
    (feedEvents (mkParser [] ["class"] "https://e.co/")
      [.startTag "a" [("href", "https://e.co/x.pdf"), ("src", "https://e.co/i.png")]]
      initState).links = [] ∧
    (feedEvents (mkParser [] ["class"] "https://e.co/")
      [.startTag "a" [("href", "https://e.co/x.pdf"), ("src", "https://e.co/i.png")]]
      initState).images = [] ∧
    (feedEvents (mkParser [] ["class"] "https://e.co/")
      [.startTag "a" [("href", "https://e.co/x.pdf"), ("src", "https://e.co/i.png")]]
      initState).files = [] := by
  decide

/-- C1, amended: `href`/`src` classification fires only for attributes whose
lowercased name is in the configured `captureAttributes` set. When `href` is
not captured, no run ever produces a link or file; when `src` is not
captured, no run ever produces an image; and when the attribute is captured,
the single-attribute start tag appends exactly the resolved value. -/
theorem classification_gated_by_capture (tags attrs : List String) (base : String) :
    (∀ events : List HEvent, "href" ∉ (mkParser tags attrs base).target_attrs →
      (feedEvents (mkParser tags attrs base) events initState).links = [] ∧
      (feedEvents (mkParser tags attrs base) events initState).files = []) ∧
    (∀ events : List HEvent, "src" ∉ (mkParser tags attrs base).target_attrs →
      (feedEvents (mkParser tags attrs base) events initState).images = []) ∧
    (∀ tag name val : String, pyLower name ∈ (mkParser tags attrs base).target_attrs →
      ((pyLower name = "href" →
        (feedEvents (mkParser tags attrs base) [.startTag tag [(name, val)]] initState).links
          = [urljoin base val]) ∧
       (pyLower name = "src" →
        (feedEvents (mkParser tags attrs base) [.startTag tag [(name, val)]] initState).images
          = [urljoin base val]))) := by
  refine ⟨?_, ?_, ?_⟩
  · intro events h
    exact ⟨feed_links_no_href h events initState, feed_files_no_href h events initState⟩
  · intro events h
    exact feed_images_no_src h events initState
  · intro tag name val h
    constructor
    · intro hh
      show (handle_starttag (mkParser tags attrs base) initState tag [(name, val)]).links = _
      rw [handle_starttag_links, show pyDict [(name, val)] = [(name, val)] from rfl,
        List.foldl_cons, List.foldl_nil, attrStep_links, if_pos ⟨h, hh⟩]
      rfl
    · intro hh
      show (handle_starttag (mkParser tags attrs base) initState tag [(name, val)]).images = _
      rw [handle_starttag_images, show pyDict [(name, val)] = [(name, val)] from rfl,
        List.foldl_cons, List.foldl_nil, attrStep_images, if_pos ⟨h, hh⟩]
      rfl

/-- C1, witness for the amended theorem at a concrete run. -/
theorem classification_gated_by_capture_witness :
    (feedEvents (mkParser [] ["class"] "https://e.co/")
      [.startTag "a" [("href", "https://e.co/x.pdf")]] initState).links = [] ∧
    (feedEvents (mkParser [] ["class"] "https://e.co/")
      [.startTag "a" [("href", "https://e.co/x.pdf")]] initState).files = [] :=
  (classification_gated_by_capture [] ["class"] "https://e.co/").1
    [.startTag "a" [("href", "https://e.co/x.pdf")]] (by decide)

/-! ## Claim C2 -/

/-- C2, counterexample: the classifier found in the source anchors the
pattern at the end of the *whole URL string*, not the path. A URL whose path
ends in `.pdf` followed by a query string is NOT classified (the spec's
path-based classifier says it is), while a URL whose *query* ends in `.pdf`
IS classified (the spec's classifier says it is not). -/
theorem classifier_path_based_cex :
    fileExtMatch "https://e.co/x.pdf?dl=1" = false ∧
    specIsDownloadableFile "https://e.co/x.pdf?dl=1" = true ∧
    fileExtMatch "https://e.co/get?file=a.pdf" = true ∧
    specIsDownloadableFile "https://e.co/get?file=a.pdf" = false := by
  decide

/-- C2, amended: `FILE_EXT_RE.search` is truthy exactly when the whole URL
(up to one trailing newline that `$` tolerates) ends, case-insensitively,
with a dot and one of the thirteen listed extensions — query strings and
fragments are *not* ignored. -/
theorem classifier_whole_string_suffix (s : String) :
    fileExtMatch s = true ↔
      ∃ e ∈ fileExts, ('.' :: e.data) <:+ (pyLower (stripTrailingNL s)).data := by
  rw [fileExtMatch, List.any_eq_true]
  constructor
  · rintro ⟨e, he, hs⟩
    exact ⟨e, he, (isSufL_iff _ _).mp hs⟩
  · rintro ⟨e, he, hs⟩
    exact ⟨e, he, (isSufL_iff _ _).mpr hs⟩

/-- C2, witness: the amended characterization instantiated at a concrete
classified URL. -/
theorem classifier_whole_string_suffix_witness :
    ∃ e ∈ fileExts, ('.' :: e.data) <:+ (pyLower (stripTrailingNL "https://e.co/a.PDF")).data :=
  (classifier_whole_string_suffix "https://e.co/a.PDF").mp (by decide)

/-! ## Claim C3 -/

/-- C3, counterexample: a captured `class` attribute with raw value `btn`
is stored as `https://e.co/btn` — URL-resolution is applied to *every*
captured attribute value, not only to `href`/`src`. -/
theorem captured_value_not_raw_cex :
    (feedEvents (mkParser [] ["class"] "https://e.co/")
      [.startTag "div" [("class", "btn")]] initState).attr_results
      = [⟨"div", "class", "https://e.co/btn"⟩] ∧
    ("https://e.co/btn" : String) ≠ "btn" := by
  refine ⟨by decide, by decide⟩

/-- C3, amended: every captured attribute entry stores
`urljoin(baseURL, raw)` — whatever the attribute's name. The raw value
survives unchanged only when URL resolution happens to leave it unchanged. -/
theorem captured_value_always_resolved (tags attrs : List String)
    (base tag name val : String)
    (h : pyLower name ∈ (mkParser tags attrs base).target_attrs) :
    (feedEvents (mkParser tags attrs base) [.startTag tag [(name, val)]] initState).attr_results
      = [⟨pyLower tag, pyLower name, urljoin base val⟩] := by
  show (handle_starttag (mkParser tags attrs base) initState tag [(name, val)]).attr_results = _
  rw [handle_starttag_attrs, show pyDict [(name, val)] = [(name, val)] from rfl,
    List.foldl_cons, List.foldl_nil, attrStep_attrs, if_pos h]
  rfl

/-- C3, witness for the amended theorem at a concrete non-`href`/`src`
attribute. -/
theorem captured_value_always_resolved_witness :
    (feedEvents (mkParser [] ["class"] "https://e.co/")
      [.startTag "div" [("class", "btn")]] initState).attr_results
      = [⟨pyLower "div", pyLower "class", urljoin "https://e.co/" "btn"⟩] :=
  captured_value_always_resolved [] ["class"] "https://e.co/" "div" "class" "btn" (by decide)

/-! ## Claim C4 -/

/-- C4: text capture is strictly scoped with a single active capture.
A data event appends an entry exactly when a capture is open (with a
nonempty tag, which every configured tag is) and the stripped text is
nonempty; with no open capture the handler is the identity; an end tag
closes the capture only when its name equals the open tag; the open tag is
always one of the configured (lowercased) capture tags; and on the malformed
Scenario B input both text runs are captured under `p`. -/
theorem text_capture_scoped :
    (∀ (st : ParserState) (d t : String), st.capturing = some t → t ≠ "" → pyStrip d ≠ "" →
      (handle_data st d).text_results = st.text_results ++ ["[" ++ t ++ "] " ++ pyStrip d]) ∧
    (∀ (st : ParserState) (d : String), pyStrip d = "" →
      (handle_data st d).text_results = st.text_results) ∧
    (∀ (st : ParserState) (d : String), st.capturing = none → handle_data st d = st) ∧
    (∀ (st : ParserState) (tag : String),
      (handle_endtag st tag).capturing = if st.capturing = some tag then none
        else st.capturing) ∧
    (∀ (tags attrs : List String) (base : String) (events : List HEvent) (t : String),
      (feedEvents (mkParser tags attrs base) events initState).capturing = some t →
      t ∈ (mkParser tags attrs base).target_tags) ∧
    ((feedEvents (mkParser ["p"] [] "https://e.co") (tokenize "<p>Unclosed<p>Next")
      initState).text_results = ["[p] Unclosed", "[p] Next"]) := by
  refine ⟨?_, ?_, ?_, ?_, ?_, by decide⟩
  · intro st d t hcap ht hd
    obtain ⟨cap, tr, ar, ls, im, fs⟩ := st
    obtain rfl : cap = some t := hcap
    simp only [handle_data]
    rw [if_neg ht, if_neg hd]
  · intro st d hd
    obtain ⟨cap, tr, ar, ls, im, fs⟩ := st
    cases cap with
    | none => rfl
    | some t =>
      simp only [handle_data]
      by_cases ht : t = ""
      · rw [if_pos ht]
      · rw [if_neg ht, if_pos hd]
  · intro st d hcap
    obtain ⟨cap, tr, ar, ls, im, fs⟩ := st
    obtain rfl : cap = none := hcap
    rfl
  · exact handle_endtag_capturing
  · intro tags attrs base events t h
    exact feed_capInv (mkParser tags attrs base) events
      (fun x hx => Option.noConfusion hx) t h

/-- C4, witness: the capture characterization applied at a concrete open
state and text. -/
theorem text_capture_scoped_witness :
    (handle_data ⟨some "p", [], [], [], [], []⟩ " Hello ").text_results
      = [] ++ ["[" ++ "p" ++ "] " ++ pyStrip " Hello "] :=
  text_capture_scoped.1 ⟨some "p", [], [], [], [], []⟩ " Hello " "p" rfl (by decide) (by decide)

/-! ## Claim C5 -/

/-- C5: with an absolute http/https base URL, every URL the engine puts into
`links`, `images` or `files` (including the files list after the worker's
collect pass) carries a scheme — no relative URL escapes the engine. -/
theorem classified_urls_absolute (tags attrs : List String) (base : String)
    (events : List HEvent) (cf : Bool) (u : String) (hb : isHttpUrl base = true)
    (hu : u ∈ (feedEvents (mkParser tags attrs base) events initState).links ∨
      u ∈ (feedEvents (mkParser tags attrs base) events initState).images ∨
      u ∈ workerFiles cf (feedEvents (mkParser tags attrs base) events initState)) :
    hasScheme u = true := by
  have hinv : SchemeInv (feedEvents (mkParser tags attrs base) events initState) :=
    feed_schemeInv _ events hb
      (by refine ⟨?_, ?_, ?_⟩ <;> intro x hx <;> simp [initState] at hx)
  obtain ⟨hl, hi, hf⟩ := hinv
  rcases hu with hu | hu | hu
  · exact hl u hu
  · exact hi u hu
  · unfold workerFiles at hu
    split_ifs at hu
    · rcases List.mem_append.mp hu with hu | hu
      · exact hf u hu
      · exact hl u (List.mem_of_mem_filter hu)
    · exact hf u hu

/-- C5, witness: a concrete run whose relative `href` resolves to an
absolute URL. -/
theorem classified_urls_absolute_witness : hasScheme "https://e.co/x.pdf" = true :=
  classified_urls_absolute [] ["href"] "https://e.co"
    [.startTag "a" [("href", "x.pdf")]] true "https://e.co/x.pdf" (by decide)
    (Or.inl (by decide))

/-! ## Claim C6 -/

/-- C6: when the fetch fails, the worker logs one terminal error and returns
before any extraction: every result collection and both download queues are
empty — zero partial results. -/
theorem fetch_error_no_extraction (e : String) (tags attrs : List String) (url : String)
    (downloadImages collectFiles : Bool) (stop : Nat → Bool) :
    workerScrape (Except.error e) tags attrs url downloadImages collectFiles stop
      = ⟨some ("[ERROR] " ++ e), [], [], [], [], [], [], []⟩ :=
  rfl

/-! ## Claim C7 -/

/-- C7, counterexample: the pre-fetch validation is a literal
`startswith("http")` test, not a scheme check. The scheme-less string
`httpgarbage` passes validation, and the genuinely http-schemed
`HTTP://E.CO` is rejected — both directions of the claimed
"iff the URL lacks an http/https scheme" fail. -/
theorem validation_scheme_iff_cex :
    startScrapeAccepts "httpgarbage" = true ∧ isHttpUrl "httpgarbage" = false ∧
    isHttpUrl "HTTP://E.CO" = true ∧ startScrapeAccepts "HTTP://E.CO" = false := by
  decide

/-- C7, amended: the operation is rejected synchronously (before the worker
thread and any fetch is started) if and only if the stripped base URL does
not start with the literal lowercase string `http`; in particular
`example.com` is rejected and any lowercase `http`/`https` URL passes. -/
theorem validation_is_prefix_test :
    (∀ url : String, startScrapeAccepts url = true ↔ "http".data <+: (pyStrip url).data) ∧
    startScrapeAccepts "example.com" = false ∧
    startScrapeAccepts "https://example.com" = true ∧
    startScrapeAccepts "http://example.com" = true := by
  refine ⟨?_, by decide, by decide, by decide⟩
  intro url
  rw [startScrapeAccepts, List.isPrefixOf_iff_prefix]

/-! ## Claim C8 -/

/-- C8, counterexample: with the stop flag raised from the start, one queued
image resolves as skipped-by-cancellation yet the final processed count is
`0`, not the queue length `1`; and with two images downloaded and the
collect-files option off over an empty file list, the reported progress
sequence is `[1, 2, 2]`, which is not strictly increasing. -/
theorem processed_count_cex :
    (workerRun true true (fun _ => true) ["https://e.co/i.png"] []).1 = 0 ∧ (0 : Nat) ≠ 1 ∧
    (workerRun true false (fun _ => false)
      ["https://e.co/a.png", "https://e.co/b.png"] []).2 = [1, 2, 2] ∧
    ¬ List.Chain' (· < ·) ([1, 2, 2] : List Nat) := by
  refine ⟨by decide, by decide, by decide, ?_⟩
  intro h
  rw [List.chain'_cons, List.chain'_cons] at h
  omega

/-- C8, amended: the processed count is non-decreasing (every reported
progress sequence is a `≤`-chain), and when cancellation is never observed
the final count equals the total number of queued items; under cancellation
it stops at the number of iterations completed. -/
theorem processed_count_monotone_total :
    (∀ (di cf : Bool) (stop : Nat → Bool) (images files : List String),
      (∀ n, stop n = false) →
      (workerRun di cf stop images files).1 = images.length + files.length) ∧
    (∀ (di cf : Bool) (stop : Nat → Bool) (images files : List String),
      List.Chain' (· ≤ ·) (workerRun di cf stop images files).2) := by
  constructor
  · intro di cf stop images files h
    simp only [workerRun, attempts_of_never h]
    cases di <;> cases cf <;> simp
  · intro di cf stop images files
    simp only [workerRun]
    cases di <;> cases cf <;> simp only [Bool.false_eq_true, if_true, if_false, ite_true,
      ite_false]
    · -- di = false, cf = false
      rw [show ([images.length] ++ [images.length + files.length] : List Nat)
        = [images.length, images.length + files.length] from rfl, List.chain'_cons]
      exact ⟨Nat.le_add_right _ _, List.chain'_singleton _⟩
    · -- di = false, cf = true
      apply chain_glue _ _ images.length (List.chain'_singleton _) (chain_le_countUp _ _)
      · intro x hx
        obtain rfl : x = images.length := by simpa using hx.symm
        exact le_refl _
      · intro y hy
        rw [countUp_head?] at hy
        split_ifs at hy
        · simp at hy
        · rw [Option.mem_def] at hy
          have hy2 := Option.some.inj hy
          omega
    · -- di = true, cf = false
      apply chain_glue _ _ (attempts stop 0 images).length (chain_le_countUp _ _)
        (List.chain'_singleton _)
      · intro x hx
        have := countUp_last_eq 0 (attempts stop 0 images).length x hx
        omega
      · intro y hy
        obtain rfl : y = (attempts stop 0 images).length + files.length := by
          simpa using hy.symm
        omega
    · -- di = true, cf = true
      apply chain_glue _ _ (attempts stop 0 images).length (chain_le_countUp _ _)
        (chain_le_countUp _ _)
      · intro x hx
        have := countUp_last_eq 0 (attempts stop 0 images).length x hx
        omega
      · intro y hy
        rw [countUp_head?] at hy
        split_ifs at hy
        · simp at hy
        · rw [Option.mem_def] at hy
          have hy2 := Option.some.inj hy
          omega

/-- C8, witness: the cancellation-free total applied to a concrete queue. -/
theorem processed_count_monotone_total_witness :
    (workerRun true true (fun _ => false)
      ["https://e.co/i.png"] ["https://e.co/f.pdf"]).1 = 2 := by
  have h := processed_count_monotone_total.1 true true (fun _ => false)
    ["https://e.co/i.png"] ["https://e.co/f.pdf"] (fun n => rfl)
  simpa using h

/-! ## Claim C9 -/

/-- C9, counterexample: two distinct URLs deriving the same filename map to
the *same* destination path (no disambiguation), and after downloading both
in one run the file at that path holds the second URL's content — the
earlier file was silently overwritten. -/
theorem download_collision_cex :
    destPath "https://e.co/a/f.pdf" "scraped_files"
      = destPath "https://e.co/b/f.pdf" "scraped_files" ∧
    destPath "https://e.co/a/f.pdf" "scraped_files" = some "scraped_files/f.pdf" ∧
    runDownloads "scraped_files" ["https://e.co/a/f.pdf", "https://e.co/b/f.pdf"]
      = [("scraped_files/f.pdf", "https://e.co/b/f.pdf")] := by
  decide

/-- C9, amended: the destination path is a pure function of the derived
filename and folder, with no per-run disambiguation: any two URLs deriving
the same filename collide on the same path, and the later retrieval
overwrites the earlier one's file. -/
theorem download_collision_overwrites (u1 u2 folder n : String)
    (h1 : derivedFilename u1 = some n) (h2 : derivedFilename u2 = some n) :
    destPath u1 folder = destPath u2 folder ∧
    runDownloads folder [u1, u2] = [(joinPath folder n, u2)] := by
  constructor
  · rw [destPath, destPath, h1, h2]
  · simp only [runDownloads, List.foldl_cons, List.foldl_nil, destPath, h1, h2,
      Option.map_some]
    simp [upsert]

/-- C9, witness: the collision-and-overwrite behaviour at two concrete URLs
sharing the filename `f.pdf`. -/
theorem download_collision_overwrites_witness :
    destPath "https://x.org/p/f.pdf" "dl" = destPath "https://x.org/q/f.pdf" "dl" ∧
    runDownloads "dl" ["https://x.org/p/f.pdf", "https://x.org/q/f.pdf"]
      = [(joinPath "dl" "f.pdf", "https://x.org/q/f.pdf")] :=
  download_collision_overwrites "https://x.org/p/f.pdf" "https://x.org/q/f.pdf" "dl" "f.pdf"
    (by decide) (by decide)

/-! ## Claim C10 -/

/-- C10: with "Collect Files" enabled, the parse already placed every
file-like captured `href` into `files` once, and the post-parse pass over
`links` appends each of them again, so each such URL occurs in the media
list exactly twice per `links` occurrence — and, with no cancellation, the
download loop attempts it exactly that often. -/
theorem collect_files_appends_twice (tags attrs : List String) (base : String)
    (events : List HEvent) (stop : Nat → Bool) (u : String) (k : Nat)
    (hstop : ∀ n, stop n = false) (hu : fileExtMatch u = true) :
    (workerFiles true (feedEvents (mkParser tags attrs base) events initState)).count u
      = 2 * ((feedEvents (mkParser tags attrs base) events initState).links.count u) ∧
    (attempts stop k
        (workerFiles true (feedEvents (mkParser tags attrs base) events initState))).count u
      = 2 * ((feedEvents (mkParser tags attrs base) events initState).links.count u) := by
  have hfiles := feed_files_eq (mkParser tags attrs base) events
  have hcount :
      (workerFiles true (feedEvents (mkParser tags attrs base) events initState)).count u
        = 2 * ((feedEvents (mkParser tags attrs base) events initState).links.count u) := by
    unfold workerFiles
    rw [if_pos rfl, hfiles, List.count_append, count_filter_fileExt u hu, Nat.two_mul]
  exact ⟨hcount, by rw [attempts_of_never hstop, hcount]⟩

/-- C10, witness: a concrete captured `href` to `x.pdf` appears twice in the
media list and twice in the attempted downloads. -/
theorem collect_files_appends_twice_witness :
    (workerFiles true (feedEvents (mkParser [] ["href"] "https://e.co/")
      [.startTag "a" [("href", "x.pdf")]] initState)).count "https://e.co/x.pdf"
      = 2 * ((feedEvents (mkParser [] ["href"] "https://e.co/")
        [.startTag "a" [("href", "x.pdf")]] initState).links.count "https://e.co/x.pdf") :=
  (collect_files_appends_twice [] ["href"] "https://e.co/"
    [.startTag "a" [("href", "x.pdf")]] (fun _ => false) "https://e.co/x.pdf" 0
    (fun n => rfl) (by decide)).1

end Scraper
